import Mathlib

/-
Verification of the WaDIQaM training/evaluation script (WaDIQaM.py).

The script has two parts that the claims are about:
  * the statistical evaluation routine measure (lines 26-36), built on
    scipy.stats correlations and numpy array arithmetic;
  * the epoch-level training control loop (lines 99-249): per-epoch
    validation, best-checkpoint tracking, checkpoint persistence,
    test-split reporting, and the post-training final test.

Floats are modelled as rationals where the control flow only compares and
accumulates them, and as reals inside the statistics (square roots).
-/

namespace WaDIQaM

/-! ## Models of the numpy / scipy library functions used by measure -/

/-- Mean of a numpy 1-D array: sum divided by length. -/
noncomputable def npMean (x : List ℝ) : ℝ := x.sum / x.length

/-- All ordered pairs (l i, l j) with i < j, as used by the Kendall tau
pair counts. -/
def pairsOf {α : Type} : List α → List (α × α)
  | [] => []
  | a :: t => (t.map fun b => (a, b)) ++ pairsOf t

/-- Sign of a real number, used by the Kendall tau numerator. -/
noncomputable def sgnR (a : ℝ) : ℝ := if 0 < a then 1 else if a < 0 then -1 else 0

/-- Models scipy.stats.rankdata with the default average method: the rank of a
value v is (number of entries below v) + (number of entries equal to v + 1)/2. -/
noncomputable def rankdata (x : List ℝ) : List ℝ :=
  x.map (fun v =>
    ((x.countP fun u => decide (u < v)) : ℝ) +
      (((x.countP fun u => decide (u = v)) : ℝ) + 1) / 2)

/-- Models the first component of scipy.stats.pearsonr: the Pearson linear
correlation coefficient. -/
noncomputable def pearsonr (x y : List ℝ) : ℝ :=
  let n : ℝ := x.length
  let mx := x.sum / n
  let my := y.sum / n
  ((x.zip y).map (fun p => (p.1 - mx) * (p.2 - my))).sum /
    Real.sqrt (((x.map fun a => (a - mx) ^ 2).sum) * ((y.map fun b => (b - my) ^ 2).sum))

/-- Models the first component of scipy.stats.spearmanr: Pearson correlation
of the rank-transformed data. -/
noncomputable def spearmanr (x y : List ℝ) : ℝ :=
  pearsonr (rankdata x) (rankdata y)

/-- Models the first component of scipy.stats.kendalltau (tau-b): the sum of
concordance signs over all pairs, normalised by the tie-corrected pair counts. -/
noncomputable def kendalltau (x y : List ℝ) : ℝ :=
  let z := x.zip y
  let num := ((pairsOf z).map fun p => sgnR (p.2.1 - p.1.1) * sgnR (p.2.2 - p.1.2)).sum
  let n0 : ℝ := (pairsOf z).length
  let n1 : ℝ := ((pairsOf z).countP fun p => decide (p.1.1 = p.2.1) : ℕ)
  let n2 : ℝ := ((pairsOf z).countP fun p => decide (p.1.2 = p.2.2) : ℕ)
  num / Real.sqrt ((n0 - n1) * (n0 - n2))

/-- measure, WaDIQaM.py lines 26-36: after flattening its three inputs it
returns the tuple (spearman, kendall, pearson, rmse, outlier ratio), where
rmse is np.sqrt of the mean of (sq - q) squared and the outlier ratio is the
numpy boolean mean of np.abs(sq - q) greater than 2 times sq_std. -/
noncomputable def measure (sq q sq_std : List ℝ) : ℝ × ℝ × ℝ × ℝ × ℝ :=
  (spearmanr sq q, kendalltau sq q, pearsonr sq q,
   Real.sqrt (npMean ((sq.zip q).map fun p => (p.1 - p.2) ^ 2)),
   npMean (((sq.zip q).zip sq_std).map fun p =>
     if 2 * p.2 < |p.1.1 - p.1.2| then (1 : ℝ) else 0))

/-- RMSE as the specification words it: the square root of the mean of
(sq - q) squared, with the mean written as a sum over the items divided by
the number of items. -/
noncomputable def specRMSE (sq q : List ℝ) : ℝ :=
  Real.sqrt ((((sq.zip q).map fun p => (p.1 - p.2) ^ 2).sum) / sq.length)

/-- Outlier ratio as the specification words it: the fraction of items whose
absolute prediction error exceeds twice the per-item standard deviation. -/
noncomputable def specOutlierRatio (sq q sq_std : List ℝ) : ℝ :=
  ((((sq.zip q).zip sq_std).countP fun p =>
      decide (2 * p.2 < |p.1.1 - p.1.2|)) : ℕ) / (sq.length : ℝ)

/-! ## Nested numpy values and flattening (lines 28-30) -/

/-- A (possibly nested) numpy value: a scalar or an array of values. -/
inductive NpVal where
  | scalar : ℝ → NpVal
  | arr : List NpVal → NpVal

/-- np.reshape(np.asarray(x), (-1,)): the flat sequence of scalars of a
nested value, in order. -/
def flattenV : NpVal → List ℝ
  | NpVal.scalar x => [x]
  | NpVal.arr [] => []
  | NpVal.arr (a :: t) => flattenV a ++ flattenV (NpVal.arr t)

/-- measure as called on arbitrarily nested inputs: lines 28-30 reshape each
argument to a flat 1-D array before any metric is computed. -/
noncomputable def measureNd (sq q sq_std : NpVal) : ℝ × ℝ × ℝ × ℝ × ℝ :=
  measure (flattenV sq) (flattenV q) (flattenV sq_std)

/-! ## Configuration and the best-checkpoint control state (lines 99-217) -/

/-- The configuration fields the control loop reads. -/
structure Conf where
  nEpochs : ℕ
  testRatio : ℚ
  testDuringTraining : Bool
  modelName : String
  databaseName : String
  expId : String

/-- trained_model_file, lines 91-92. -/
def trainedModelFile (c : Conf) : String :=
  "models/" ++ c.modelName ++ "-" ++ c.databaseName ++ "-EXP" ++ c.expId

/-- A torch.save call: either the state-dict snapshot (line 215) or the full
model object (line 216), with the path written to and the epoch whose weights
are saved. -/
inductive SaveEvent where
  | stateDict (path : String) (epoch : ℕ)
  | fullModel (path : String) (epoch : ℕ)
deriving DecidableEq

/-- The epoch a save event persisted. -/
def SaveEvent.epochOf : SaveEvent → ℕ
  | SaveEvent.stateDict _ e => e
  | SaveEvent.fullModel _ e => e

/-- The loop state: best_val_criterion, the epoch currently persisted in
trained_model_file (none before the first save), and the log of torch.save
calls made so far. -/
structure TrainState where
  best : ℚ
  savedEpoch : Option ℕ
  saves : List SaveEvent
deriving DecidableEq

/-- best_val_criterion = 10000, line 104; nothing saved yet. -/
def initState : TrainState := ⟨10000, none, []⟩

/-- The guard epoch > n_epochs/6 from line 172 (Python true division). -/
def eligible (c : Conf) (e : ℕ) : Prop := (c.nEpochs : ℚ) / 6 < (e : ℚ)

instance (c : Conf) (e : ℕ) : Decidable (eligible c e) :=
  inferInstanceAs (Decidable ((c.nEpochs : ℚ) / 6 < (e : ℚ)))

/-- Lines 172-217: if val_loss < best_val_criterion and epoch > n_epochs/6,
save the state dict and the full model and update best_val_criterion;
otherwise leave the state unchanged. -/
def updateStep (c : Conf) (v : ℕ → ℚ) (s : TrainState) (e : ℕ) : TrainState :=
  if v e < s.best ∧ eligible c e then
    { best := v e
      savedEpoch := some e
      saves := s.saves ++ [SaveEvent.stateDict (trainedModelFile c) e,
                           SaveEvent.fullModel (trainedModelFile c ++ ".full") e] }
  else s

/-- The best-checkpoint state after the first k epochs, for the per-epoch
validation losses v. -/
def runPrefix (c : Conf) (v : ℕ → ℚ) (k : ℕ) : TrainState :=
  (List.range k).foldl (updateStep c v) initState

/-- The best-checkpoint state after the full epoch loop (lines 105-217). -/
def runTraining (c : Conf) (v : ℕ → ℚ) : TrainState :=
  runPrefix c v c.nEpochs

/-- A concrete configuration: 6 epochs, a positive test ratio. -/
def cexConf : Conf :=
  { nEpochs := 6
    testRatio := 1/5
    testDuringTraining := true
    modelName := "WaDIQaM-FR"
    databaseName := "LIVE"
    expId := "0" }

/-- A concrete per-epoch validation loss curve whose global minimum is at
epoch 0, inside the first sixth of the run. -/
def cexLoss : ℕ → ℚ := fun e =>
  if e = 0 then 1 else if e = 1 then 5 else if e = 2 then 4 else if e = 3 then 3 else 2

/-! ## The per-epoch evaluation phase (lines 119-149) -/

/-- What the model returns on a batch in eval mode: outputs[0] is the loss,
outputs[3] is the predicted quality. -/
structure Outputs where
  loss : ℚ
  q : ℚ

/-- One indexed element of a dataset batch. -/
inductive BatchItem (P Lab : Type) where
  | patches : P → BatchItem P Lab
  | label : Lab → BatchItem P Lab
  | scalar : ℚ → BatchItem P Lab

/-- Indexing data[i] into a provider batch (patches, distortion label,
subjective quality mean, subjective quality std-dev). -/
def batchGet {P Lab : Type} (b : P × Lab × ℚ × ℚ) : ℕ → Option (BatchItem P Lab)
  | 0 => some (BatchItem.patches b.1)
  | 1 => some (BatchItem.label b.2.1)
  | 2 => some (BatchItem.scalar b.2.2.1)
  | 3 => some (BatchItem.scalar b.2.2.2)
  | _ + 4 => none

/-- The accumulators of the evaluation loop: L, q, sq, sq_std
(lines 121-124). -/
structure ValAcc where
  L : ℚ
  q : List ℚ
  sq : List ℚ
  sq_std : List ℚ
deriving DecidableEq

/-- One iteration of the evaluation loop (lines 125-130): append data[2] to
sq and data[3] to sq_std, run the network, accumulate the loss, append the
predicted quality. -/
def valStep {P Lab : Type} (net : P × Lab × ℚ × ℚ → Outputs)
    (acc : ValAcc) (data : P × Lab × ℚ × ℚ) : ValAcc :=
  { L := acc.L + (net data).loss
    q := acc.q ++ [(net data).q]
    sq := acc.sq ++ [data.2.2.1]
    sq_std := acc.sq_std ++ [data.2.2.2] }

/-- The full evaluation pass over one split loader. -/
def valPass {P Lab : Type} (net : P × Lab × ℚ × ℚ → Outputs)
    (loader : List (P × Lab × ℚ × ℚ)) : ValAcc :=
  loader.foldl (valStep net) ⟨0, [], [], []⟩

/-- Which split an evaluator invocation is for. -/
inductive Split where
  | val
  | test
deriving DecidableEq

/-- One invocation of measure: the split and the three argument lists, in the
order measure(sq, q, sq_std) of lines 132 and 148. -/
structure EvalCall where
  split : Split
  sq : List ℚ
  q : List ℚ
  sq_std : List ℚ
deriving DecidableEq

/-- The evaluator invocations one epoch makes (lines 119-149): always one on
the validation split; additionally one on the test split when test_ratio > 0
and test_during_training. -/
def epochEvalCalls {P Lab : Type} (net : P × Lab × ℚ × ℚ → Outputs)
    (valloader testloader : List (P × Lab × ℚ × ℚ))
    (testRatio : ℚ) (testDuringTraining : Bool) : List EvalCall :=
  if 0 < testRatio ∧ testDuringTraining = true then
    [⟨Split.val, (valPass net valloader).sq, (valPass net valloader).q,
      (valPass net valloader).sq_std⟩,
     ⟨Split.test, (valPass net testloader).sq, (valPass net testloader).q,
      (valPass net testloader).sq_std⟩]
  else
    [⟨Split.val, (valPass net valloader).sq, (valPass net valloader).q,
      (valPass net valloader).sq_std⟩]

/-- An event inside one epoch: a training step on one train batch
(lines 109-116) or an evaluator invocation (lines 132, 148). -/
inductive EpochEvent (P Lab : Type) where
  | trainStep (data : P × Lab × ℚ × ℚ)
  | evalCall (call : EvalCall)

/-- The ordered event trace of one epoch: the training pass over the train
split (lines 107-117), then the evaluation phase (lines 119-149). -/
def epochTrace {P Lab : Type} (net : P × Lab × ℚ × ℚ → Outputs)
    (trainloader valloader testloader : List (P × Lab × ℚ × ℚ))
    (testRatio : ℚ) (testDuringTraining : Bool) : List (EpochEvent P Lab) :=
  trainloader.map EpochEvent.trainStep ++
    (epochEvalCalls net valloader testloader testRatio testDuringTraining).map
      EpochEvent.evalCall

/-! ## Test-split reporting (lines 195-212 and 240-249) -/

/-- The metric slots of one printed or written test-results line. -/
structure TestLine where
  loss : ℝ
  srocc : ℝ
  krocc : ℝ
  plcc : ℝ
  rmse : ℝ
  orPercent : ℝ

/-- The test-results line printed during training (lines 196-202), built from
the test loss, the measure tuple m of the test split, and val_OR: its last
slot is val_OR * 100. -/
def printTestLine (testLoss : ℝ) (m : ℝ × ℝ × ℝ × ℝ × ℝ) (val_OR : ℝ) : TestLine :=
  ⟨testLoss, m.1, m.2.1, m.2.2.1, m.2.2.2.1, val_OR * 100⟩

/-- The test-results line written to the results text file during training
(lines 203-209): the same expressions as the printed line, val_OR * 100 last. -/
def writeTestLine (testLoss : ℝ) (m : ℝ × ℝ × ℝ × ℝ × ℝ) (val_OR : ℝ) : TestLine :=
  ⟨testLoss, m.1, m.2.1, m.2.2.1, m.2.2.2.1, val_OR * 100⟩

/-- The final test-results line printed after training (lines 240-246): again
the last slot is val_OR * 100. -/
def finalPrintTestLine (testLoss : ℝ) (m : ℝ × ℝ × ℝ × ℝ × ℝ) (val_OR : ℝ) : TestLine :=
  ⟨testLoss, m.1, m.2.1, m.2.2.1, m.2.2.2.1, val_OR * 100⟩

/-- The tuple passed to np.save (lines 210-212 and 247-249):
(sq, sq_std, q, test_loss, SROCC, KROCC, PLCC, RMSE, OR, test_index). -/
structure NpSaveRecord where
  sq : List ℝ
  sq_std : List ℝ
  q : List ℝ
  loss : ℝ
  srocc : ℝ
  krocc : ℝ
  plcc : ℝ
  rmse : ℝ
  outlier_ratio : ℝ
  test_index : List ℕ

/-- Building the np.save tuple from the collected lists, the test loss, the
measure tuple m of the test split, and the test index. -/
def npSaveRecord (sq sq_std q : List ℝ) (testLoss : ℝ)
    (m : ℝ × ℝ × ℝ × ℝ × ℝ) (ti : List ℕ) : NpSaveRecord :=
  ⟨sq, sq_std, q, testLoss, m.1, m.2.1, m.2.2.1, m.2.2.2.1, m.2.2.2.2, ti⟩

/-! ## The post-training final test block (lines 219-238) -/

/-- A Python value as relevant here: a str or a network module (abstracted to
the tag of the weights it holds). -/
inductive PyVal where
  | pystr (s : String)
  | pymodule (weights : ℕ)
deriving DecidableEq

/-- Line 48: the name model is bound to conf of model, a string. -/
def modelVar (c : Conf) : PyVal := PyVal.pystr c.modelName

/-- Models the Python attribute call v.load_state_dict(sd): a module loads
the state dict; a str has no such attribute, so the call raises
AttributeError. -/
def callLoadStateDict (v : PyVal) (sd : ℕ) : Except String PyVal :=
  match v with
  | PyVal.pystr _ =>
      Except.error "AttributeError: str object has no attribute load_state_dict"
  | PyVal.pymodule _ => Except.ok (PyVal.pymodule sd)

/-- The final test block, lines 219-238: when test_ratio > 0 its first
statement is model.load_state_dict(torch.load(trained_model_file)); sd is the
loaded state dict. -/
def finalTestBlock (c : Conf) (sd : ℕ) : Except String Unit :=
  if 0 < c.testRatio then
    match callLoadStateDict (modelVar c) sd with
    | Except.error e => Except.error e
    | Except.ok _ => Except.ok ()
  else
    Except.ok ()

/-! ## Loop invariant -/

/-- The invariant of the best-checkpoint loop after k epochs: either nothing
has been saved, best_val_criterion is still 10000 and every eligible epoch so
far had loss at least 10000; or the state records the earliest eligible epoch
of minimal loss so far, whose loss is below 10000, and the last torch.save
call persisted exactly that epoch. -/
def Inv (c : Conf) (v : ℕ → ℚ) (k : ℕ) (s : TrainState) : Prop :=
  (s.savedEpoch = none ∧ s.saves = [] ∧ s.best = 10000 ∧
    ∀ e, e < k → eligible c e → 10000 ≤ v e) ∨
  (∃ e, s.savedEpoch = some e ∧ s.best = v e ∧ e < k ∧ eligible c e ∧ v e < 10000 ∧
    (∀ j, j < k → eligible c j → v e ≤ v j) ∧
    (∀ j, j < e → eligible c j → v e < v j) ∧
    s.saves.getLast? = some (SaveEvent.fullModel (trainedModelFile c ++ ".full") e))

/-! ## Helper lemmas -/

theorem sum_map_ite {α : Type} (p : α → Prop) [DecidablePred p] (l : List α) :
    (l.map fun a => if p a then (1 : ℝ) else 0).sum =
      ((l.countP fun a => decide (p a) : ℕ) : ℝ) := by
  induction l with
  | nil => simp
  | cons a t ih =>
    by_cases h : p a <;> simp [List.countP_cons, h, ih, add_comm]

theorem runPrefix_succ (c : Conf) (v : ℕ → ℚ) (k : ℕ) :
    runPrefix c v (k + 1) = updateStep c v (runPrefix c v k) k := by
  unfold runPrefix
  rw [List.range_succ, List.foldl_append, List.foldl_cons, List.foldl_nil]

theorem inv_holds (c : Conf) (v : ℕ → ℚ) : ∀ k, Inv c v k (runPrefix c v k) := by
  intro k
  induction k with
  | zero =>
    left
    exact ⟨rfl, rfl, rfl, fun e he _ => absurd he (Nat.not_lt_zero e)⟩
  | succ k ih =>
    rw [runPrefix_succ]
    unfold Inv updateStep
    unfold Inv at ih
    by_cases hcond : v k < (runPrefix c v k).best ∧ eligible c k
    · rw [if_pos hcond]
      right
      refine ⟨k, rfl, rfl, Nat.lt_succ_self k, hcond.2, ?_, ?_, ?_, ?_⟩
      · rcases ih with h | h
        · rw [h.2.2.1] at hcond; exact hcond.1
        · obtain ⟨e, _, hbest, _, _, hlt, _, _, _⟩ := h
          rw [hbest] at hcond
          exact hcond.1.trans hlt
      · intro j hj helig
        rcases Nat.lt_succ_iff_lt_or_eq.mp hj with hj | hj
        · rcases ih with h | h
          · refine le_of_lt (lt_of_lt_of_le ?_ (h.2.2.2 j hj helig))
            rw [h.2.2.1] at hcond; exact hcond.1
          · obtain ⟨e, _, hbest, _, _, _, hmin, _, _⟩ := h
            rw [hbest] at hcond
            exact le_of_lt (lt_of_lt_of_le hcond.1 (hmin j hj helig))
        · subst hj; exact le_refl _
      · intro j hj helig
        rcases ih with h | h
        · refine lt_of_lt_of_le ?_ (h.2.2.2 j hj helig)
          rw [h.2.2.1] at hcond; exact hcond.1
        · obtain ⟨e, _, hbest, _, _, _, hmin, _, _⟩ := h
          rw [hbest] at hcond
          exact lt_of_lt_of_le hcond.1 (hmin j hj helig)
      · rw [show (runPrefix c v k).saves ++
              [SaveEvent.stateDict (trainedModelFile c) k,
               SaveEvent.fullModel (trainedModelFile c ++ ".full") k] =
            ((runPrefix c v k).saves ++ [SaveEvent.stateDict (trainedModelFile c) k]) ++
              [SaveEvent.fullModel (trainedModelFile c ++ ".full") k] by simp]
        exact List.getLast?_concat _
    · rw [if_neg hcond]
      rcases ih with h | h
      · left
        obtain ⟨hse, hsa, hbest, hall⟩ := h
        refine ⟨hse, hsa, hbest, ?_⟩
        intro e he helig
        rcases Nat.lt_succ_iff_lt_or_eq.mp he with he | he
        · exact hall e he helig
        · subst he
          have hnot : ¬ (v e < (runPrefix c v e).best) := fun hvk => hcond ⟨hvk, helig⟩
          rw [hbest] at hnot
          exact not_lt.mp hnot
      · right
        obtain ⟨e, hse, hbest, hek, helig, hlt, hmin, hfirst, hlast⟩ := h
        refine ⟨e, hse, hbest, hek.trans (Nat.lt_succ_self k), helig, hlt, ?_, hfirst, hlast⟩
        intro j hj hjelig
        rcases Nat.lt_succ_iff_lt_or_eq.mp hj with hj | hj
        · exact hmin j hj hjelig
        · subst hj
          have hnot : ¬ (v j < (runPrefix c v j).best) := fun hvk => hcond ⟨hvk, hjelig⟩
          rw [hbest] at hnot
          exact not_lt.mp hnot

theorem saves_epochs_eligible (c : Conf) (v : ℕ → ℚ) :
    ∀ k s, s ∈ (runPrefix c v k).saves → eligible c (SaveEvent.epochOf s) := by
  intro k
  induction k with
  | zero =>
    intro s hs
    simp only [runPrefix, List.range_zero, List.foldl_nil, initState] at hs
    exact absurd hs (List.not_mem_nil s)
  | succ k ih =>
    intro s hs
    rw [runPrefix_succ] at hs
    unfold updateStep at hs
    by_cases hcond : v k < (runPrefix c v k).best ∧ eligible c k
    · rw [if_pos hcond] at hs
      simp only [List.mem_append, List.mem_cons, List.not_mem_nil, or_false] at hs
      rcases hs with hs | hs | hs
      · exact ih s hs
      · subst hs; exact hcond.2
      · subst hs; exact hcond.2
    · rw [if_neg hcond] at hs
      exact ih s hs

theorem valPass_foldl {P Lab : Type} (net : P × Lab × ℚ × ℚ → Outputs) :
    ∀ (l : List (P × Lab × ℚ × ℚ)) (acc : ValAcc),
      l.foldl (valStep net) acc =
        ⟨acc.L + (l.map fun d => (net d).loss).sum,
         acc.q ++ l.map (fun d => (net d).q),
         acc.sq ++ l.map (fun d => d.2.2.1),
         acc.sq_std ++ l.map (fun d => d.2.2.2)⟩ := by
  intro l
  induction l with
  | nil =>
    intro acc
    cases acc
    simp
  | cons a t ih =>
    intro acc
    rw [List.foldl_cons, ih]
    simp [valStep, add_assoc, List.append_assoc]

theorem measure_or_component_zero :
    (measure [(0 : ℝ), 1] [0, 1] [1, 1]).2.2.2.2 = 0 := by
  have h1 : ¬ (2 * (1 : ℝ) < |(0 : ℝ) - 0|) := by
    rw [sub_self, abs_zero]; norm_num
  have h2 : ¬ (2 * (1 : ℝ) < |(1 : ℝ) - 1|) := by
    rw [sub_self, abs_zero]; norm_num
  simp only [measure, List.zip_cons_cons, List.zip_nil_right, List.map_cons, List.map_nil,
    if_neg h1, if_neg h2, npMean, List.sum_cons, List.sum_nil, List.length_cons,
    List.length_nil]
  norm_num

theorem measure_or_component_one :
    (measure [(10 : ℝ), 20] [0, 1] [1, 1]).2.2.2.2 = 1 := by
  have h1 : 2 * (1 : ℝ) < |(10 : ℝ) - 0| := by
    rw [show (10 : ℝ) - 0 = 10 by norm_num, abs_of_nonneg (by norm_num : (0 : ℝ) ≤ 10)]
    norm_num
  have h2 : 2 * (1 : ℝ) < |(20 : ℝ) - 1| := by
    rw [show (20 : ℝ) - 1 = 19 by norm_num, abs_of_nonneg (by norm_num : (0 : ℝ) ≤ 19)]
    norm_num
  simp only [measure, List.zip_cons_cons, List.zip_nil_right, List.map_cons, List.map_nil,
    if_pos h1, if_pos h2, npMean, List.sum_cons, List.sum_nil, List.length_cons,
    List.length_nil]
  norm_num

/-! ## Claim theorems -/

/-- C1 counterexample: on a 6-epoch run whose validation losses are
1, 5, 4, 3, 2, 2, the persisted best checkpoint is from epoch 4, although
epoch 0 has a strictly smaller validation loss — selection is not the
minimum over all epochs. -/
theorem best_checkpoint_not_global_min_cex :
    (runTraining cexConf cexLoss).savedEpoch = some 4 ∧ cexLoss 0 < cexLoss 4 := by
  refine ⟨?_, by norm_num [cexLoss]⟩
  rcases inv_holds cexConf cexLoss 6 with h | h
  · exfalso
    have h2 := h.2.2.2 2 (by norm_num) (by norm_num [eligible, cexConf])
    norm_num [cexLoss] at h2
  · obtain ⟨e, hse, _, hek, helig, _, hmin, hfirst, _⟩ := h
    have h2le : 2 ≤ e := by
      by_contra hlt
      push_neg at hlt
      have hne : ¬ eligible cexConf e := by
        interval_cases e <;> norm_num [eligible, cexConf]
      exact hne helig
    have he4 : e = 4 := by
      have h4 := hmin 4 (by norm_num) (by norm_num [eligible, cexConf])
      interval_cases e
      · norm_num [cexLoss] at h4
      · norm_num [cexLoss] at h4
      · rfl
      · have h5 := hfirst 4 (by norm_num) (by norm_num [eligible, cexConf])
        norm_num [cexLoss] at h5
    rw [he4] at hse
    exact hse

/-- C1 (amended): when some epoch e with e > n_epochs/6 has validation loss
below the initial criterion 10000, the persisted best checkpoint is from the
earliest such eligible epoch whose validation loss is minimal among all
eligible epochs — not necessarily minimal over all epochs of the run. -/
theorem best_checkpoint_is_min_over_eligible (c : Conf) (v : ℕ → ℚ)
    (h : ∃ e, e < c.nEpochs ∧ eligible c e ∧ v e < 10000) :
    ∃ e, (runTraining c v).savedEpoch = some e ∧ e < c.nEpochs ∧ eligible c e ∧
      (∀ j, j < c.nEpochs → eligible c j → v e ≤ v j) ∧
      (∀ j, j < e → eligible c j → v e < v j) := by
  rcases inv_holds c v c.nEpochs with hinv | hinv
  · obtain ⟨e, he, helig, hv⟩ := h
    exact absurd hv (not_lt.mpr (hinv.2.2.2 e he helig))
  · obtain ⟨e, hse, _, hek, helig, _, hmin, hfirst, _⟩ := hinv
    exact ⟨e, hse, hek, helig, hmin, hfirst⟩

/-- C1 witness: the amended statement applied to the concrete 6-epoch run. -/
theorem best_checkpoint_is_min_over_eligible_witness :
    ∃ e, (runTraining cexConf cexLoss).savedEpoch = some e ∧ e < cexConf.nEpochs ∧
      eligible cexConf e ∧
      (∀ j, j < cexConf.nEpochs → eligible cexConf j → cexLoss e ≤ cexLoss j) ∧
      (∀ j, j < e → eligible cexConf j → cexLoss e < cexLoss j) :=
  best_checkpoint_is_min_over_eligible cexConf cexLoss
    ⟨2, by norm_num [cexConf], by norm_num [eligible, cexConf], by norm_num [cexLoss]⟩

/-- C2: on equal-length non-empty inputs, measure returns exactly the five
values (Spearman rank correlation, Kendall rank correlation, Pearson linear
correlation, the square root of the mean squared error, and the fraction of
items whose absolute error exceeds twice the per-item std), in that order. -/
theorem measure_returns_five_spec_values (sq q sq_std : List ℝ)
    (hq : q.length = sq.length) (hstd : sq_std.length = sq.length) (_hne : sq ≠ []) :
    measure sq q sq_std =
      (spearmanr sq q, kendalltau sq q, pearsonr sq q,
       specRMSE sq q, specOutlierRatio sq q sq_std) := by
  have hzip : (sq.zip q).length = sq.length := by
    rw [List.length_zip, hq, min_self]
  have hzip2 : ((sq.zip q).zip sq_std).length = sq.length := by
    rw [List.length_zip, hzip, hstd, min_self]
  simp only [measure, Prod.mk.injEq, eq_self_iff_true, true_and]
  refine ⟨?_, ?_⟩
  · rw [specRMSE, npMean, List.length_map, hzip]
  · rw [npMean, sum_map_ite, specOutlierRatio, List.length_map, hzip2]

/-- C2 witness: the statement applied to sq = [1, 2], q = [3, 4],
sq_std = [1, 1]. -/
theorem measure_returns_five_spec_values_witness :
    ([3, 4] : List ℝ).length = ([1, 2] : List ℝ).length ∧
    ([1, 1] : List ℝ).length = ([1, 2] : List ℝ).length ∧
    ([1, 2] : List ℝ) ≠ [] ∧
    measure [1, 2] [3, 4] [1, 1] =
      (spearmanr [1, 2] [3, 4], kendalltau [1, 2] [3, 4], pearsonr [1, 2] [3, 4],
       specRMSE [1, 2] [3, 4], specOutlierRatio [1, 2] [3, 4] [1, 1]) :=
  ⟨by simp, by simp, by simp,
   measure_returns_five_spec_values [1, 2] [3, 4] [1, 1] (by simp) (by simp) (by simp)⟩

/-- C3 (code bug): with test_ratio > 0 the final test block calls
load_state_dict on the name model, which line 48 bound to the configuration
string, so the program raises AttributeError instead of loading the best
checkpoint into the network and evaluating it. -/
theorem final_test_raises_attribute_error (c : Conf) (sd : ℕ) (h : 0 < c.testRatio) :
    finalTestBlock c sd =
      Except.error "AttributeError: str object has no attribute load_state_dict" := by
  unfold finalTestBlock
  rw [if_pos h]
  rfl

/-- C3 witness: the concrete configuration with test_ratio = 1/5. -/
theorem final_test_raises_attribute_error_witness :
    finalTestBlock cexConf 0 =
      Except.error "AttributeError: str object has no attribute load_state_dict" :=
  final_test_raises_attribute_error cexConf 0 (by norm_num [cexConf])

/-- C4 counterexample: with a validation split of outlier ratio 0 and a test
split of outlier ratio 1, the OR slot of the printed test-results line is
val_OR * 100 = 0, not the test outlier ratio times 100. -/
theorem printed_test_or_is_val_or_cex :
    (printTestLine 0 (measure [(10 : ℝ), 20] [0, 1] [1, 1])
        ((measure [(0 : ℝ), 1] [0, 1] [1, 1]).2.2.2.2)).orPercent ≠
      (measure [(10 : ℝ), 20] [0, 1] [1, 1]).2.2.2.2 * 100 := by
  rw [measure_or_component_one]
  have hpr : (printTestLine 0 (measure [(10 : ℝ), 20] [0, 1] [1, 1])
      ((measure [(0 : ℝ), 1] [0, 1] [1, 1]).2.2.2.2)).orPercent =
      (measure [(0 : ℝ), 1] [0, 1] [1, 1]).2.2.2.2 * 100 := rfl
  rw [hpr, measure_or_component_zero]
  norm_num

/-- C4 (amended): the printed and written test-results lines report the
evaluator test loss, SROCC, KROCC, PLCC and RMSE, but their outlier-ratio
slot holds the validation outlier ratio times 100; the np.save record stores
the evaluator test metrics including the test outlier ratio. -/
theorem test_report_fields (testLoss val_OR : ℝ) (tsq tq tstd sq sq_std q : List ℝ)
    (ti : List ℕ) :
    printTestLine testLoss (measure tsq tq tstd) val_OR =
      { loss := testLoss
        srocc := (measure tsq tq tstd).1
        krocc := (measure tsq tq tstd).2.1
        plcc := (measure tsq tq tstd).2.2.1
        rmse := (measure tsq tq tstd).2.2.2.1
        orPercent := val_OR * 100 } ∧
    writeTestLine testLoss (measure tsq tq tstd) val_OR =
      printTestLine testLoss (measure tsq tq tstd) val_OR ∧
    finalPrintTestLine testLoss (measure tsq tq tstd) val_OR =
      printTestLine testLoss (measure tsq tq tstd) val_OR ∧
    npSaveRecord sq sq_std q testLoss (measure tsq tq tstd) ti =
      { sq := sq
        sq_std := sq_std
        q := q
        loss := testLoss
        srocc := (measure tsq tq tstd).1
        krocc := (measure tsq tq tstd).2.1
        plcc := (measure tsq tq tstd).2.2.1
        rmse := (measure tsq tq tstd).2.2.2.1
        outlier_ratio := (measure tsq tq tstd).2.2.2.2
        test_index := ti } :=
  ⟨rfl, rfl, rfl, rfl⟩

/-- C5: in every epoch, after the training pass the evaluator is invoked
exactly once on the validation split, with the ground-truth means, stds and
predicted qualities of every validation batch collected in loader order, and
the accumulated validation loss is the sum of the per-batch losses. -/
theorem val_evaluator_called_once_per_epoch {P Lab : Type}
    (net : P × Lab × ℚ × ℚ → Outputs)
    (trainloader valloader testloader : List (P × Lab × ℚ × ℚ))
    (testRatio : ℚ) (tdt : Bool) :
    ((epochEvalCalls net valloader testloader testRatio tdt).filter
        fun call => decide (call.split = Split.val)) =
      [⟨Split.val, valloader.map (fun d => d.2.2.1),
        valloader.map (fun d => (net d).q),
        valloader.map (fun d => d.2.2.2)⟩] ∧
    epochTrace net trainloader valloader testloader testRatio tdt =
      trainloader.map EpochEvent.trainStep ++
        (epochEvalCalls net valloader testloader testRatio tdt).map EpochEvent.evalCall ∧
    (valPass net valloader).L = (valloader.map fun d => (net d).loss).sum := by
  have hval : valPass net valloader =
      ⟨(valloader.map fun d => (net d).loss).sum,
       valloader.map (fun d => (net d).q),
       valloader.map (fun d => d.2.2.1),
       valloader.map (fun d => d.2.2.2)⟩ := by
    have h := valPass_foldl net valloader ⟨0, [], [], []⟩
    simpa [valPass] using h
  refine ⟨?_, rfl, by rw [hval]⟩
  unfold epochEvalCalls
  by_cases hcond : 0 < testRatio ∧ tdt = true
  · rw [if_pos hcond, hval]
    simp [List.filter]
  · rw [if_neg hcond, hval]
    simp [List.filter]

/-- C6: whenever the best-model branch is taken, both the state-dict snapshot
at the trained-model path and the full model object at the same path with
suffix .full are persisted, in that order. -/
theorem best_update_saves_state_and_full (c : Conf) (v : ℕ → ℚ) (s : TrainState)
    (e : ℕ) (hlt : v e < s.best) (helig : eligible c e) :
    (updateStep c v s e).saves =
      s.saves ++ [SaveEvent.stateDict (trainedModelFile c) e,
                  SaveEvent.fullModel (trainedModelFile c ++ ".full") e] := by
  unfold updateStep
  rw [if_pos ⟨hlt, helig⟩]

/-- C6 witness: the statement at the concrete configuration, epoch 2. -/
theorem best_update_saves_state_and_full_witness :
    (updateStep cexConf cexLoss initState 2).saves =
      initState.saves ++ [SaveEvent.stateDict (trainedModelFile cexConf) 2,
                          SaveEvent.fullModel (trainedModelFile cexConf ++ ".full") 2] :=
  best_update_saves_state_and_full cexConf cexLoss initState 2
    (by norm_num [cexLoss, initState]) (by norm_num [eligible, cexConf])

/-- C7: a provider batch is a 4-tuple with the patches at position 0, the
distortion label at position 1, the subjective quality mean at position 2 and
the std-dev at position 3, and the evaluation loop collects sq from position
2 and sq_std from position 3 of each batch. -/
theorem batch_positions_and_val_collection {P Lab : Type} (b : P × Lab × ℚ × ℚ)
    (net : P × Lab × ℚ × ℚ → Outputs) (loader : List (P × Lab × ℚ × ℚ)) :
    batchGet b 0 = some (BatchItem.patches b.1) ∧
    batchGet b 1 = some (BatchItem.label b.2.1) ∧
    batchGet b 2 = some (BatchItem.scalar b.2.2.1) ∧
    batchGet b 3 = some (BatchItem.scalar b.2.2.2) ∧
    (valPass net loader).sq = loader.map (fun d => d.2.2.1) ∧
    (valPass net loader).sq_std = loader.map (fun d => d.2.2.2) := by
  have hval := valPass_foldl net loader ⟨0, [], [], []⟩
  refine ⟨rfl, rfl, rfl, rfl, ?_, ?_⟩
  · unfold valPass
    rw [hval]
    simp
  · unfold valPass
    rw [hval]
    simp

/-- C8: a checkpoint is never written in an epoch k with k ≤ n_epochs/6 (the
whole state is unchanged there); a write in epoch k requires val loss below
the current best criterion and k > n_epochs/6; and no save event of the whole
run carries an epoch from the first sixth. -/
theorem no_save_in_first_sixth (c : Conf) (v : ℕ → ℚ) :
    (∀ (k : ℕ), (k : ℚ) ≤ (c.nEpochs : ℚ) / 6 → runPrefix c v (k + 1) = runPrefix c v k) ∧
    (∀ (k : ℕ), (runPrefix c v (k + 1)).saves ≠ (runPrefix c v k).saves →
      v k < (runPrefix c v k).best ∧ (c.nEpochs : ℚ) / 6 < (k : ℚ)) ∧
    (∀ (e : ℕ), (e : ℚ) ≤ (c.nEpochs : ℚ) / 6 →
      ∀ s, s ∈ (runTraining c v).saves → SaveEvent.epochOf s ≠ e) := by
  refine ⟨?_, ?_, ?_⟩
  · intro k hk
    rw [runPrefix_succ]
    unfold updateStep
    rw [if_neg]
    rintro ⟨-, helig⟩
    exact absurd hk (not_le.mpr helig)
  · intro k hne
    by_cases hcond : v k < (runPrefix c v k).best ∧ eligible c k
    · exact ⟨hcond.1, hcond.2⟩
    · exfalso
      apply hne
      rw [runPrefix_succ]
      unfold updateStep
      rw [if_neg hcond]
  · intro e he s hs
    have helig := saves_epochs_eligible c v c.nEpochs s hs
    intro heq
    rw [heq] at helig
    exact absurd he (not_le.mpr helig)

/-- C8 witness: in the concrete 6-epoch run, epoch 0 (0 ≤ 6/6) changes
nothing. -/
theorem no_save_in_first_sixth_witness :
    runPrefix cexConf cexLoss 1 = runPrefix cexConf cexLoss 0 :=
  (no_save_in_first_sixth cexConf cexLoss).1 0 (by norm_num [cexConf])

/-- C9: best_val_criterion starts at 10000, is non-increasing across epochs,
equals 10000 while no checkpoint has been written and otherwise the
validation loss of the most recently persisted epoch, and it changes only
together with the checkpoint-writing saves. -/
theorem best_val_criterion_invariant (c : Conf) (v : ℕ → ℚ) :
    (runPrefix c v 0).best = 10000 ∧
    (∀ k, (runPrefix c v (k + 1)).best ≤ (runPrefix c v k).best) ∧
    (∀ k, (runPrefix c v k).saves = [] → (runPrefix c v k).best = 10000) ∧
    (∀ k p e, (runPrefix c v k).saves.getLast? = some (SaveEvent.fullModel p e) →
      (runPrefix c v k).best = v e) ∧
    (∀ k, (runPrefix c v (k + 1)).best ≠ (runPrefix c v k).best →
      (runPrefix c v (k + 1)).saves =
        (runPrefix c v k).saves ++
          [SaveEvent.stateDict (trainedModelFile c) k,
           SaveEvent.fullModel (trainedModelFile c ++ ".full") k]) := by
  refine ⟨rfl, ?_, ?_, ?_, ?_⟩
  · intro k
    rw [runPrefix_succ]
    unfold updateStep
    by_cases hcond : v k < (runPrefix c v k).best ∧ eligible c k
    · rw [if_pos hcond]
      exact le_of_lt hcond.1
    · rw [if_neg hcond]
  · intro k hsaves
    rcases inv_holds c v k with h | h
    · exact h.2.2.1
    · obtain ⟨e, _, _, _, _, _, _, _, hlast⟩ := h
      rw [hsaves] at hlast
      exact absurd hlast (by simp)
  · intro k p e hlast
    rcases inv_holds c v k with h | h
    · rw [h.2.1] at hlast
      exact absurd hlast (by simp)
    · obtain ⟨e0, _, hbest, _, _, _, _, _, hlast0⟩ := h
      rw [hlast0] at hlast
      have h2 := Option.some.inj hlast
      injection h2 with hpath hepoch
      rw [hbest, hepoch]
  · intro k hne
    by_cases hcond : v k < (runPrefix c v k).best ∧ eligible c k
    · rw [runPrefix_succ]
      unfold updateStep
      rw [if_pos hcond]
    · exfalso
      apply hne
      rw [runPrefix_succ]
      unfold updateStep
      rw [if_neg hcond]

/-- C9 witness: before any epoch the saves log is empty and the criterion is
10000. -/
theorem best_val_criterion_invariant_witness :
    (runPrefix cexConf cexLoss 0).best = 10000 :=
  (best_val_criterion_invariant cexConf cexLoss).2.2.1 0 rfl

/-- C10: measure flattens each input before computing any metric, so inputs
with equal flattened value sequences yield identical results regardless of
nesting. -/
theorem measure_shape_invariant (a a' b b' c c' : NpVal)
    (ha : flattenV a = flattenV a') (hb : flattenV b = flattenV b')
    (hc : flattenV c = flattenV c') :
    measureNd a b c = measureNd a' b' c' := by
  rw [measureNd, measureNd, ha, hb, hc]

/-- C10 witness: a nested 2-element array, a doubly nested one and a bare
scalar against their flat reshapes. -/
theorem measure_shape_invariant_witness :
    flattenV (NpVal.arr [NpVal.arr [NpVal.scalar 1], NpVal.scalar 2]) =
      flattenV (NpVal.arr [NpVal.scalar 1, NpVal.scalar 2]) ∧
    flattenV (NpVal.arr [NpVal.arr [NpVal.scalar 3, NpVal.scalar 4]]) =
      flattenV (NpVal.arr [NpVal.scalar 3, NpVal.scalar 4]) ∧
    flattenV (NpVal.scalar 5) = flattenV (NpVal.arr [NpVal.scalar 5]) ∧
    measureNd (NpVal.arr [NpVal.arr [NpVal.scalar 1], NpVal.scalar 2])
        (NpVal.arr [NpVal.arr [NpVal.scalar 3, NpVal.scalar 4]]) (NpVal.scalar 5) =
      measureNd (NpVal.arr [NpVal.scalar 1, NpVal.scalar 2])
        (NpVal.arr [NpVal.scalar 3, NpVal.scalar 4]) (NpVal.arr [NpVal.scalar 5]) := by
  have h1 : flattenV (NpVal.arr [NpVal.arr [NpVal.scalar 1], NpVal.scalar 2]) =
      flattenV (NpVal.arr [NpVal.scalar 1, NpVal.scalar 2]) := by
    simp [flattenV]
  have h2 : flattenV (NpVal.arr [NpVal.arr [NpVal.scalar 3, NpVal.scalar 4]]) =
      flattenV (NpVal.arr [NpVal.scalar 3, NpVal.scalar 4]) := by
    simp [flattenV]
  have h3 : flattenV (NpVal.scalar 5) = flattenV (NpVal.arr [NpVal.scalar 5]) := by
    simp [flattenV]
  exact ⟨h1, h2, h3, measure_shape_invariant _ _ _ _ _ _ h1 h2 h3⟩

end WaDIQaM
